import Mathlib

/-!
Verification development for the StoX stochastic multistage recruitment model
(stage tree, casting tables, validator, simulation engine and model codec).
The definitions below are shallow embeddings of the corresponding C++ code in
`source/stox.h` / `source/stox.cpp`; `float` values are modelled as exact
rationals and the Qt byte stream as a list of typed tokens.
-/

set_option maxHeartbeats 1000000

namespace StoX

/-- The attributes stored for a stage in the four columns of the tree widget:
display name (column 0), casting assignment (column 1), report check state
(column 2) and hierarchical id (column 3). -/
structure SRec where
  name : String
  cast : String
  report : Bool
  hid : String
deriving DecidableEq, Repr

/-- A stage node of the model tree (a `QTreeWidgetItem`): its record plus the
ordered list of child stages. -/
inductive Stage where
  | node : SRec → List Stage → Stage

mutual

/-- Decidable equality of stages (nested induction, done by hand). -/
def Stage.deq : (a b : Stage) → Decidable (a = b)
  | .node r cs, .node r2 cs2 =>
    match decEq r r2 with
    | isFalse h => isFalse (by simp [h])
    | isTrue h =>
      match Stage.deqList cs cs2 with
      | isTrue h2 => isTrue (by rw [h, h2])
      | isFalse h2 => isFalse (by simp [h, h2])

/-- Decidable equality of stage lists. -/
def Stage.deqList : (a b : List Stage) → Decidable (a = b)
  | [], [] => isTrue rfl
  | [], _ :: _ => isFalse (by simp)
  | _ :: _, [] => isFalse (by simp)
  | a :: as, b :: bs =>
    match Stage.deq a b, Stage.deqList as bs with
    | isTrue h1, isTrue h2 => isTrue (by rw [h1, h2])
    | isFalse h1, _ => isFalse (by simp [h1])
    | _, isFalse h2 => isFalse (by simp [h2])

end

instance : DecidableEq Stage := Stage.deq

/-- The stored record of a stage. -/
def Stage.srec : Stage → SRec
  | .node r _ => r

/-- The children of a stage. -/
def Stage.children : Stage → List Stage
  | .node _ cs => cs

/-- A casting table (`TableModel`): name, declared row and column counts and
the raw cell data (`rawdata`, row major). -/
structure Table where
  name : String
  rows : Nat
  cols : Nat
  data : List (List ℚ)
deriving DecidableEq, Repr

/-- Cut a row-major flat list into `rows` rows of `cols` cells each, consuming
the flat list front to back exactly as the loops of `TableModel::FillFromRaw`
do. -/
def chunksC : Nat → Nat → List ℚ → List (List ℚ)
  | 0, _, _ => []
  | r + 1, c, xs => xs.take c :: chunksC r c (xs.drop c)

/-- Embeds `TableModel::FillFromRaw`: fill a table from a row-major float array.
Note that no clamping of any kind is applied here. -/
def fillFromRaw (raw : List ℚ) (rows cols : Nat) (name : String) : Table :=
  { name := name, rows := rows, cols := cols, data := chunksC rows cols raw }

/-- Embeds `TableModel::FillZeroes`: fill a table of the given shape with zeroes. -/
def fillZeroes (rows cols : Nat) (name : String) : Table :=
  { name := name, rows := rows, cols := cols
    data := List.replicate rows (List.replicate cols 0) }

/-- Embeds `TableModel::readCell` (`rawdata.at(r).at(c)`), with the out-of-bounds
exception of `std::vector::at` modelled as `none`. -/
def Table.readCell (t : Table) (r c : Nat) : Option ℚ :=
  (t.data.get? r).bind fun row => row.get? c

/-- Embeds `TableModel::sumCols`: sum of the cells of one row (0 for a row index
outside the data, where the C++ would be undefined). -/
def Table.sumCols (t : Table) (r : Nat) : ℚ :=
  ((t.data.get? r).getD []).sum

/-- Update position `i` of a list in place, identity when out of range. -/
def updAt {α : Type} (l : List α) (i : Nat) (f : α → α) : List α :=
  match l.get? i with
  | some x => l.set i (f x)
  | none => l

/-- Embeds `TableModel::setData` for an edit of cell `(r, c)` to value `v`: the value
is clamped to `[0,1]`, then reduced to the remaining headroom
`1 - sum(otherCellsInRow)` if the row total would exceed 1. An invalid index
(outside the model's bounds) leaves the table unchanged, as the
`index.isValid()` guard does. -/
def Table.setData (t : Table) (r c : Nat) (v : ℚ) : Table :=
  if r < t.rows ∧ c < t.cols then
    match t.data.get? r with
    | none => t
    | some row =>
      match row.get? c with
      | none => t
      | some pos =>
        let val := if v < 0 then 0 else if 1 < v then 1 else v
        let sum := row.sum - pos
        let val2 := if 1 < sum + val then 1 - sum else val
        { t with data := t.data.set r (row.set c val2) }
  else t

/-! ### Model serialization: `Stox::Dump` and the tree rebuild of
`Stox::on_actionOpen_triggered` -/

mutual

/-- Embeds `Stox::Dump`: flatten the tree in pre-order into a list of
`(level, record)` pairs, the level being the depth from the root. -/
def dump : Int → Stage → List (Int × SRec)
  | lv, .node r cs => (lv, r) :: dumpList (lv + 1) cs

/-- The dump of a sibling list, left to right. -/
def dumpList : Int → List Stage → List (Int × SRec)
  | _, [] => []
  | lv, c :: cs => dump lv c ++ dumpList lv cs

end

mutual

/-- Number of nodes of a stage tree. -/
def sz : Stage → Nat
  | .node _ cs => 1 + szList cs

/-- Number of nodes of a forest. -/
def szList : List Stage → Nat
  | [] => 0
  | c :: cs => sz c + szList cs

end

/-- A freshly deserialized record becomes a childless tree item. -/
def initS (p : Int × SRec) : Int × Stage := (p.1, .node p.2 [])

/-- Models `insertChild(0, child)`: prepend a child to a node. -/
def prependChild : Stage → Stage → Stage
  | .node r cs, ch => .node r (ch :: cs)

/-- Attach `ch` as first child of the rightmost list entry whose level is
`pl` (the backward `std::find_if(rbegin, rend, ...)` search of
`on_actionOpen_triggered`); `none` when no entry has that level. -/
def attachR : List (Int × Stage) → Int → Stage → Option (List (Int × Stage))
  | [], _, _ => none
  | (l, s) :: rest, pl, ch =>
    match attachR rest pl ch with
    | some rest2 => some ((l, s) :: rest2)
    | none => if l = pl then some ((l, prependChild s ch) :: rest) else none

/-- The tree-rebuilding loop of `on_actionOpen_triggered`: repeatedly take the
last record of the remaining list, attach it as first child of the nearest
preceding record one level up; a record with no such predecessor becomes the
root (`addTopLevelItem` + `break`). The fuel is the declared stage count. -/
def rebuildLoop : Nat → List (Int × Stage) → Option Stage
  | 0, _ => none
  | fuel + 1, l =>
    match l.getLast? with
    | none => none
    | some (lv, s) =>
      match attachR l.dropLast (lv - 1) s with
      | some l2 => rebuildLoop fuel l2
      | none => some s

/-- One field of the `QDataStream` byte stream, typed (int, string, float or
bool). -/
inductive Tok where
  | i : Int → Tok
  | s : String → Tok
  | f : ℚ → Tok
  | b : Bool → Tok
deriving DecidableEq

/-- The serialized form of one stage record (the payload that
`stream << *item` writes for a tree widget item: its column texts and check
state). -/
def recToks (r : SRec) : List Tok :=
  [.s r.name, .s r.cast, .b r.report, .s r.hid]

/-- The serialized stage list: each dumped record preceded by its level. -/
def dumpToks (ds : List (Int × SRec)) : List Tok :=
  ds.flatMap fun p => .i p.1 :: recToks p.2

/-- Models `readCell` as used by the save loops, which index strictly inside
`rows × cols`; out-of-bounds (where `std::vector::at` would abort the save)
is defaulted to 0 and excluded by the well-formedness hypotheses below. -/
def Table.cellD (t : Table) (r c : Nat) : ℚ :=
  (((t.data.get? r).getD []).get? c).getD 0

/-- The serialized form of one casting table: name, row count, column count
and the row-major cell payload. -/
def tabToks (t : Table) : List Tok :=
  .s t.name :: .i t.rows :: .i t.cols ::
    (List.range t.rows).flatMap fun r =>
      (List.range t.cols).map fun c => Tok.f (t.cellD r c)

/-- Embeds `Stox::on_actionSave_triggered`: stage count, the level-tagged pre-order
dump of the tree, then table count and every casting table. -/
def saveModel (tr : Stage) (tabs : List Table) : List Tok :=
  .i ((dump 0 tr).length : Int) :: dumpToks (dump 0 tr) ++
    .i (tabs.length : Int) :: tabs.flatMap tabToks

/-- Read one int field. -/
def rdInt : List Tok → Option (Int × List Tok)
  | .i n :: ts => some (n, ts)
  | _ => none

/-- Read one string field. -/
def rdStr : List Tok → Option (String × List Tok)
  | .s v :: ts => some (v, ts)
  | _ => none

/-- Read one bool field. -/
def rdBool : List Tok → Option (Bool × List Tok)
  | .b v :: ts => some (v, ts)
  | _ => none

/-- Read one float field. -/
def rdFlo : List Tok → Option (ℚ × List Tok)
  | .f v :: ts => some (v, ts)
  | _ => none

/-- Read one `(level, stageRecord)` pair. -/
def rdRec (ts : List Tok) : Option ((Int × SRec) × List Tok) := do
  let (lv, ts) ← rdInt ts
  let (nm, ts) ← rdStr ts
  let (ca, ts) ← rdStr ts
  let (re, ts) ← rdBool ts
  let (hi, ts) ← rdStr ts
  pure ((lv, ⟨nm, ca, re, hi⟩), ts)

/-- Read `n` `(level, stageRecord)` pairs. -/
def rdRecs : Nat → List Tok → Option (List (Int × SRec) × List Tok)
  | 0, ts => some ([], ts)
  | n + 1, ts => do
    let (d, ts) ← rdRec ts
    let (ds, ts) ← rdRecs n ts
    pure (d :: ds, ts)

/-- Read `n` float fields. -/
def rdFlos : Nat → List Tok → Option (List ℚ × List Tok)
  | 0, ts => some ([], ts)
  | n + 1, ts => do
    let (v, ts) ← rdFlo ts
    let (vs, ts) ← rdFlos n ts
    pure (v :: vs, ts)

/-- Read one casting table: name, shape, then `rows*cols` floats which
`FillFromRaw` cuts back into rows. -/
def rdTable (ts : List Tok) : Option (Table × List Tok) := do
  let (nm, ts) ← rdStr ts
  let (rows, ts) ← rdInt ts
  let (cols, ts) ← rdInt ts
  let (vs, ts) ← rdFlos (rows.toNat * cols.toNat) ts
  pure (fillFromRaw vs rows.toNat cols.toNat nm, ts)

/-- Read `n` casting tables. -/
def rdTables : Nat → List Tok → Option (List Table × List Tok)
  | 0, ts => some ([], ts)
  | n + 1, ts => do
    let (t, ts) ← rdTable ts
    let (tabs, ts) ← rdTables n ts
    pure (t :: tabs, ts)

/-- Embeds `Stox::on_actionOpen_triggered`: parse the stage records and the casting
tables from the stream, then rebuild the tree from the record list (the C++
reads records with an `atEnd` guard, which on a complete stream reads exactly
the declared count). -/
def loadModel (ts : List Tok) : Option (Stage × List Table) := do
  let (n, ts) ← rdInt ts
  let (recs, ts) ← rdRecs n.toNat ts
  let (m, ts) ← rdInt ts
  let (tabs, _) ← rdTables m.toNat ts
  let root ← rebuildLoop n.toNat (recs.map initS)
  pure (root, tabs)

/-! ### Validator: `Stox::on_actionCheck_triggered` -/

/-- The reserved kind names (`TypeNames` list of the constructor). -/
def typeNames : List String := ["Direct", "Caster", "Success", "Sink"]

/-- Structural validation errors (the four fatal message boxes of the check
pass). -/
inductive CErr where
  | missingTerminal
  | wrongSingle
  | missingCasting
  | shapeMismatch
deriving DecidableEq

/-- The per-node coherence check of `on_actionCheck_triggered` for a stage
with casting text `r.cast` and `n` children: leaves must be `Success`/`Sink`,
single-child stages `Direct`, branch stages a non-reserved casting; if a table
of that name exists (first match in the table list), its column count must be
`n`. A non-reserved casting naming no existing table falls through the lookup
loop and is not reported. -/
def nodeCheck (tabs : List Table) (r : SRec) (n : Nat) : Option CErr :=
  if n = 0 then
    if ¬(r.cast = "Success") ∧ ¬(r.cast = "Sink") then some .missingTerminal else none
  else if n = 1 then
    if ¬(r.cast = "Direct") then some .wrongSingle else none
  else if r.cast = "Direct" ∨ r.cast = "Success" ∨ r.cast = "Sink" then
    some .missingCasting
  else
    match tabs.find? (fun t => t.name == r.cast) with
    | some t => if ¬(t.cols = n) then some .shapeMismatch else none
    | none => none

mutual

/-- The structural pass of the validator: pre-order traversal over the whole
tree (root included, as `QTreeWidgetItemIterator` starts at the root), first
error aborts. -/
def checkStructure (tabs : List Table) : Stage → Option CErr
  | .node r cs =>
    match nodeCheck tabs r cs.length with
    | some e => some e
    | none => checkList tabs cs

/-- The structural pass over a sibling list, left to right, first error wins. -/
def checkList (tabs : List Table) : List Stage → Option CErr
  | [] => none
  | c :: cs =>
    match checkStructure tabs c with
    | some e => some e
    | none => checkList tabs cs

end

/-- Row-sum consistency warnings: some table has a row whose sum deviates from
1 by more than 0.001. -/
def hasWarnings (tabs : List Table) : Bool :=
  tabs.any fun t => (List.range t.rows).any fun r => decide (1/1000 < |1 - t.sumCols r|)

mutual

/-- Embeds `Stox::IDMarkTree`: give the node the id `pid` and its children the ids
`pid.1`, `pid.2`, ... (the root is marked `"1"`). -/
def idMark (pid : String) : Stage → Stage
  | .node r cs => .node { r with hid := pid } (idMarkL pid 1 cs)

/-- Mark a sibling list, the `i`-th (1-based) child getting `pid ++ "." ++ i`. -/
def idMarkL (pid : String) (i : Nat) : List Stage → List Stage
  | [] => []
  | c :: cs => idMark (pid ++ "." ++ toString i) c :: idMarkL pid (i + 1) cs

end

/-! ### Simulation engine: `Stox::Cast` and `Stox::on_actionRun_triggered` -/

/-- The per-node population values stored in the tree items' `Qt::UserRole`
data, mirroring the tree shape. -/
inductive PTree where
  | node : ℚ → List PTree → PTree

mutual

/-- Decidable equality of population trees. -/
def PTree.deq : (a b : PTree) → Decidable (a = b)
  | .node p ps, .node q qs =>
    match decEq p q with
    | isFalse h => isFalse (by simp [h])
    | isTrue h =>
      match PTree.deqList ps qs with
      | isTrue h2 => isTrue (by rw [h, h2])
      | isFalse h2 => isFalse (by simp [h, h2])

/-- Decidable equality of population tree lists. -/
def PTree.deqList : (a b : List PTree) → Decidable (a = b)
  | [], [] => isTrue rfl
  | [], _ :: _ => isFalse (by simp)
  | _ :: _, [] => isFalse (by simp)
  | a :: as, b :: bs =>
    match PTree.deq a b, PTree.deqList as bs with
    | isTrue h1, isTrue h2 => isTrue (by rw [h1, h2])
    | isFalse h1, _ => isFalse (by simp [h1])
    | _, isFalse h2 => isFalse (by simp [h2])

end

instance : DecidableEq PTree := PTree.deq

/-- The population recorded at the root of a population tree. -/
def PTree.pop : PTree → ℚ
  | .node p _ => p

mutual

/-- All-zero initial population data (an unset `QVariant` reads as `0.0`). -/
def initP : Stage → PTree
  | .node _ cs => .node 0 (initPL cs)

/-- Zero population data for a sibling list. -/
def initPL : List Stage → List PTree
  | [] => []
  | c :: cs => initP c :: initPL cs

end

/-- Failures of a `Cast` call: `outOfRange` is the `std::out_of_range`
exception of `rawdata.at(r)`, `noChild` the null dereference of `child(0)` on
a childless `Direct` stage, `shapeMismatch` a population tree not mirroring
the stage tree (never produced by this model). -/
inductive CastErr where
  | outOfRange
  | noChild
  | shapeMismatch
deriving DecidableEq

mutual

/-- Embeds `Stox::Cast`: record the incoming population `n` at the node; stop at
`Success`/`Sink`; forward everything to the single child of a `Direct` stage;
otherwise look the casting table up by name (first match; a missing name
silently ends the recursion). For a found table, take row `readRows()` as-is
unless more than one row exists, in which case a bootstrap row index is drawn
(modelled by `rand k % rows`, advancing the generator counter `k`); then give
child `c` the population `n * (f > 0 ? f : Eps)` for `f` the sampled row's
cell `c`. -/
def cast (tabs : List Table) (eps : ℚ) (rand : Nat → Nat) :
    Stage → PTree → ℚ → Nat → Except CastErr (PTree × Nat)
  | .node r cs, .node _ pcs, n, k =>
    if r.cast = "Success" ∨ r.cast = "Sink" then .ok (.node n pcs, k)
    else if r.cast = "Direct" then
      match cs, pcs with
      | c :: _, pc :: prest =>
        match cast tabs eps rand c pc n k with
        | .ok (pc2, k2) => .ok (.node n (pc2 :: prest), k2)
        | .error e => .error e
      | _, _ => .error .noChild
    else
      match tabs.find? (fun t => t.name == r.cast) with
      | none => .ok (.node n pcs, k)
      | some t =>
        let row := if 1 < t.rows then rand k % t.rows else t.rows
        let k1 := if 1 < t.rows then k + 1 else k
        match castKids tabs eps rand t row 0 cs pcs n k1 with
        | .ok (pcs2, k2) => .ok (.node n pcs2, k2)
        | .error e => .error e

/-- The child-distribution loop of `Cast`: child `c` receives
`n * (f > 0 ? f : Eps)` where `f = readCell(row, c)`. -/
def castKids (tabs : List Table) (eps : ℚ) (rand : Nat → Nat) (t : Table) (row : Nat) :
    Nat → List Stage → List PTree → ℚ → Nat → Except CastErr (List PTree × Nat)
  | _, [], pcs, _, k => .ok (pcs, k)
  | c, ch :: cst, pc :: pcst, n, k =>
    match t.readCell row c with
    | none => .error .outOfRange
    | some f =>
      match cast tabs eps rand ch pc (n * (if 0 < f then f else eps)) k with
      | .ok (pc2, k2) =>
        match castKids tabs eps rand t row (c + 1) cst pcst n k2 with
        | .ok (rest2, k3) => .ok (pc2 :: rest2, k3)
        | .error e => .error e
      | .error e => .error e
  | _, _ :: _, [], _, _ => .error .shapeMismatch

end

/-! ### Application state (`Stox` members) and the editing operations -/

/-- The persistent members of the `Stox` window that the core operations
touch: the model tree, the casting table list with its counter, and the two
derived status flags. -/
structure StoxState where
  tree : Stage
  tables : List Table
  numTables : Int
  checked : Bool
  saved : Bool
deriving DecidableEq

/-- A default-constructed `TableModel` (zero rows and columns, empty name). -/
def emptyTable : Table := { name := "", rows := 0, cols := 0, data := [] }

/-- Count occurrences of a character in a string (`QString::count`). -/
def countChar (s : String) (c : Char) : Nat := s.toList.count c

/-- Embeds `Stox::on_BPasteTable_clicked`, with the clipboard contents (`none` for
non-text mime data) and the `QTextStream` float extraction (external library
behaviour) passed in. The guards on the new name run first; then a fresh
table is pushed onto `Tables` *before* the clipboard contents are examined,
so a rejected clipboard (fewer than 2 tabs or 1 newline, or no text) returns
with the empty table left behind. The duplicate check consults the casting
combo box, which lists exactly the named tables (the pushed empty table keeps
the name `""`, which the first guard already excludes). -/
def pasteTable (st : StoxState) (newName : String) (clip : Option String)
    (readFloats : String → Nat → List ℚ) : StoxState :=
  if newName = "" then st
  else if newName ∈ typeNames then st
  else if st.tables.any (fun t => t.name == newName) then st
  else
    let st1 := { st with tables := st.tables ++ [emptyTable], numTables := st.numTables + 1 }
    match clip with
    | none => st1
    | some text =>
      let c := countChar text (Char.ofNat 9)
      let r := countChar text (Char.ofNat 10)
      if c < 2 ∨ r < 1 then st1
      else
        let c2 := (c + r) / r
        let vals := readFloats text (r * c2)
        { st with
            tables := st.tables ++ [fillFromRaw vals r c2 newName]
            numTables := st.numTables + 1
            checked := false
            saved := false }

/-- Embeds `Stox::on_BNewTable_clicked`: guards on the new name, then a zero-filled
table of the spin boxes' shape is added and both status flags drop. -/
def newTable (st : StoxState) (name : String) (rows cols : Nat) : StoxState :=
  if name = "" then st
  else if name ∈ typeNames then st
  else if st.tables.any (fun t => t.name == name) then st
  else
    { st with
        tables := st.tables ++ [fillZeroes rows cols name]
        numTables := st.numTables + 1
        checked := false
        saved := false }

/-- Apply `f` to the subtree at `path` (child indices from the root);
unchanged on a dangling path (the UI always passes a live item). -/
def updAtPath : List Nat → (Stage → Stage) → Stage → Stage
  | [], f, t => f t
  | i :: p, f, .node r cs => .node r (updAt cs i (updAtPath p f))

/-- Embeds `Stox::on_BChild_clicked` / `AddTreeChild`: append a child with the given
name and casting text (the casting combo text for a `Caster`, else the
reserved kind name) under the selected stage; both flags drop. Guards: a
stage must be selected and the name non-empty. -/
def addChildOp (st : StoxState) (sel : Option (List Nat)) (newName castTxt : String) :
    StoxState :=
  match sel with
  | none => st
  | some path =>
    if newName = "" then st
    else
      { st with
          tree := updAtPath path
            (fun s => match s with
              | .node r cs => .node r (cs ++ [.node ⟨newName, castTxt, false, ""⟩ []]))
            st.tree
          checked := false
          saved := false }

/-- Embeds `Stox::on_BSetCasting_clicked`: write the selected casting's name into
column 1 of the selected stage; both flags drop. Guards: a stage and a
casting must be selected. -/
def setCastingOp (st : StoxState) (sel : Option (List Nat)) (castSel : Option String) :
    StoxState :=
  match sel, castSel with
  | some path, some cname =>
    { st with
        tree := updAtPath path
          (fun s => match s with | .node r cs => .node { r with cast := cname } cs)
          st.tree
        checked := false
        saved := false }
  | _, _ => st

/-- A cell edit through the table view: `TableModel::setData` on table `ti`
of the list. The table model has no access to the window's status flags, so
they are left untouched. -/
def stoxTableWrite (st : StoxState) (ti r c : Nat) (v : ℚ) : StoxState :=
  { st with tables := updAt st.tables ti (fun t => t.setData r c v) }

mutual

/-- Set the report check state of every node of a forest. -/
def repAll (b : Bool) : Stage → Stage
  | .node r cs => .node { r with report := b } (repAllL b cs)

/-- The report toggle over a sibling list. -/
def repAllL (b : Bool) : List Stage → List Stage
  | [] => []
  | c :: cs => repAll b c :: repAllL b cs

end

/-- Embeds `Stox::on_BShowAll_clicked`: check the report mark of every stage below
the root (the iterator is pre-incremented past the root before the loop).
The status flags are not touched. -/
def showAllOp (st : StoxState) : StoxState :=
  { st with tree := match st.tree with | .node r cs => .node r (repAllL true cs) }

/-- Embeds `Stox::on_actionCheck_triggered`: reset `checked`, remark the ids, run the
structural pass; on structural failure return with `checked` still false; on
success, `checked` becomes true unless row-sum warnings exist and the user
cancels at one of them (`ack = false`). -/
def checkOp (st : StoxState) (ack : Bool) : StoxState :=
  let st1 := { st with checked := false, tree := idMark "1" st.tree }
  match checkStructure st1.tables st1.tree with
  | some _ => st1
  | none =>
    if hasWarnings st1.tables ∧ ¬ack then st1
    else { st1 with checked := true }

/-! ### The run: output table construction and the iteration loop -/

/-- One cell of the output table: a header string, a numeric population, a
formatted iteration index, or a still-empty cell (number formatting is
presentation and not modelled). -/
inductive OutCell where
  | str : String → OutCell
  | num : ℚ → OutCell
  | iterIdx : Nat → OutCell
  | blank
deriving DecidableEq

/-- The output table (`OutTableModel`) produced by a run. -/
structure OutTable where
  rows : Nat
  cols : Nat
  cells : List (List OutCell)
deriving DecidableEq

/-- Pad a row with blank cells up to the column count. -/
def padRow (l : List OutCell) (cols : Nat) : List OutCell :=
  l ++ List.replicate (cols - l.length) .blank

mutual

/-- The records of the report-flagged stages in pre-order (root included, as
in the counting and header loops of `on_actionRun_triggered`). -/
def reportedL : Stage → List SRec
  | .node r cs => (if r.report then [r] else []) ++ reportedLL cs

/-- The reported records of a sibling list. -/
def reportedLL : List Stage → List SRec
  | [] => []
  | c :: cs => reportedL c ++ reportedLL cs

end

mutual

/-- The populations of the report-flagged stages in pre-order, read from the
population data mirror. -/
def extractRep : Stage → PTree → List ℚ
  | .node r cs, .node p pcs => (if r.report then [p] else []) ++ extractRepL cs pcs

/-- The reported populations of sibling lists. -/
def extractRepL : List Stage → List PTree → List ℚ
  | [], _ => []
  | _ :: _, [] => []
  | c :: cs, p :: ps => extractRep c p ++ extractRepL cs ps

end

/-- Failure modes of a run: refused because not validated, or aborted by the
uncaught exception of a `Cast` call. -/
inductive RunErr where
  | notValidated
  | castCrash
deriving DecidableEq

/-- The iteration loop of `on_actionRun_triggered`: one `Cast` from the root
per iteration, then one output row of the report-flagged populations;
`cancel i` observes the cancel button during iteration `i`'s event
processing, stopping before the next iteration. -/
def runLoop (tabs : List Table) (eps : ℚ) (rand : Nat → Nat) (cancel : Nat → Bool)
    (tree : Stage) (pop0 : ℚ) (cols : Nat) :
    Nat → Nat → PTree → Nat → Except CastErr (List (List OutCell))
  | 0, _, _, _ => .ok []
  | rem + 1, i, pt, k =>
    match cast tabs eps rand tree pt pop0 k with
    | .error e => .error e
    | .ok (pt2, k2) =>
      let row := padRow (.iterIdx i :: (extractRep tree pt2).map .num) cols
      if cancel i then .ok [row]
      else
        match runLoop tabs eps rand cancel tree pop0 cols rem (i + 1) pt2 k2 with
        | .ok rows => .ok (row :: rows)
        | .error e => .error e

/-- Embeds `Stox::on_actionRun_triggered`. The two dialog answers are passed in:
`saveChoice` (save an unsaved model first) and `checkChoice` (check an
unchecked model first), plus `ack` for the warning prompts of that check. If
the model is still unchecked after that, the run is refused before any output
table is allocated. Otherwise the output table of `Iters + 3` rows and
`max 5 (reported + 1)` columns is built and the iterations run. The two
opening dialogs of the handler (optionally saving, then optionally checking)
are split into `preState`. -/
def preState (st : StoxState) (saveChoice checkChoice ack : Bool) : StoxState :=
  let st1 := if ¬st.saved ∧ saveChoice then { st with saved := true } else st
  if ¬st1.checked ∧ checkChoice then checkOp st1 ack else st1

def runTriggered (st : StoxState) (saveChoice checkChoice ack : Bool)
    (pop0 : ℚ) (iters : Nat) (eps : ℚ) (rand : Nat → Nat) (cancel : Nat → Bool) :
    StoxState × Except RunErr OutTable :=
  let st2 := preState st saveChoice checkChoice ack
  if ¬st2.checked then (st2, .error .notValidated)
  else
    let reps := reportedL st2.tree
    let cols := max 5 (reps.length + 1)
    let header :=
      [padRow [.blank, .str "Initial", .num pop0, .str "Eps", .num eps] cols,
       padRow (.blank :: reps.map (fun r => OutCell.str r.hid)) cols,
       padRow (.str "Iter" :: reps.map (fun r => OutCell.str r.name)) cols]
    match runLoop st2.tables eps rand cancel st2.tree pop0 cols iters 1 (initP st2.tree) 0 with
    | .error _ => (st2, .error .castCrash)
    | .ok rows =>
      (st2, .ok { rows := iters + 3, cols := cols
                  cells := header ++ rows ++
                    List.replicate (iters - rows.length) (padRow [] cols) })

/-! ### Generic infrastructure: sizes and an induction principle for the
nested tree type -/

lemma sz_node (r : SRec) (cs : List Stage) : sz (.node r cs) = 1 + szList cs := by
  simp [sz]

lemma szList_cons (c : Stage) (cs : List Stage) :
    szList (c :: cs) = sz c + szList cs := by
  simp [szList]

lemma szList_append (as bs : List Stage) :
    szList (as ++ bs) = szList as + szList bs := by
  induction as with
  | nil => simp [szList]
  | cons a as ih => simp [szList, ih]; omega

lemma sz_mem_le (cs : List Stage) (c : Stage) (hc : c ∈ cs) : sz c ≤ szList cs := by
  induction cs with
  | nil => cases hc
  | cons a as ih =>
    rcases List.mem_cons.mp hc with h | h
    · subst h
      rw [szList_cons]
      omega
    · have h2 := ih h
      rw [szList_cons]
      omega

/-- Structural induction over stages with the member hypothesis for the
children list. -/
lemma stage_ind (P : Stage → Prop)
    (h : ∀ r cs, (∀ c ∈ cs, P c) → P (.node r cs)) : ∀ t, P t := by
  have key : ∀ n t, sz t ≤ n → P t := by
    intro n
    induction n with
    | zero =>
      intro t ht
      cases t with
      | node r cs => rw [sz_node] at ht; omega
    | succ n ih =>
      intro t ht
      cases t with
      | node r cs =>
        apply h
        intro c hc
        apply ih
        have h1 := sz_mem_le cs c hc
        rw [sz_node] at ht
        omega
  intro t
  exact key (sz t) t le_rfl

/-! ### Facts about `Cast` -/

/-- The children list of a population tree node. -/
def PTree.kids : PTree → List PTree
  | .node _ ps => ps

lemma cast_terminal (tabs : List Table) (eps : ℚ) (rand : Nat → Nat)
    (c : Stage) (pc : PTree) (m : ℚ) (k : Nat)
    (hc : c.srec.cast = "Success" ∨ c.srec.cast = "Sink") :
    cast tabs eps rand c pc m k = .ok (.node m pc.kids, k) := by
  cases c with
  | node r cs =>
    cases pc with
    | node q ps =>
      simp only [Stage.srec] at hc
      unfold cast
      rcases hc with hc | hc <;> simp [PTree.kids, hc]

lemma castKids_terminal (tabs : List Table) (eps : ℚ) (rand : Nat → Nat) (t : Table)
    (row : Nat) (ws : List ℚ) (hws : t.data.get? row = some ws) :
    ∀ (cs : List Stage) (pcs : List PTree) (i : Nat) (n : ℚ) (k : Nat),
      (∀ c ∈ cs, c.srec.cast = "Success" ∨ c.srec.cast = "Sink") →
      pcs.length = cs.length →
      i + cs.length ≤ ws.length →
      ∃ pcs2, castKids tabs eps rand t row i cs pcs n k = .ok (pcs2, k) ∧
        pcs2.map PTree.pop
          = ((ws.drop i).take cs.length).map (fun f => n * (if 0 < f then f else eps)) := by
  intro cs
  induction cs with
  | nil =>
    intro pcs i n k hterm hlen hle
    have hnil : pcs = [] := List.eq_nil_of_length_eq_zero (by simpa using hlen)
    subst hnil
    exact ⟨[], by unfold castKids; simp, by simp⟩
  | cons ch cst ih =>
    intro pcs i n k hterm hlen hle
    cases pcs with
    | nil => simp at hlen
    | cons pc pcst =>
      have hi : i < ws.length := by
        simp only [List.length_cons] at hle
        omega
      have hread : t.readCell row i = some (ws.get ⟨i, hi⟩) := by
        show (t.data.get? row).bind (fun rw2 => rw2.get? i) = _
        rw [hws, Option.some_bind]
        exact List.get?_eq_get hi
      have hchterm := hterm ch (by simp)
      have hrest : ∀ c ∈ cst, c.srec.cast = "Success" ∨ c.srec.cast = "Sink" := by
        intro c hcm
        exact hterm c (by simp [hcm])
      obtain ⟨pcs2, hck, hpops⟩ := ih pcst (i + 1) n k hrest (by simpa using hlen)
        (by simp only [List.length_cons] at hle; omega)
      refine ⟨.node (n * (if 0 < ws.get ⟨i, hi⟩ then ws.get ⟨i, hi⟩ else eps)) pc.kids :: pcs2,
        ?_, ?_⟩
      · unfold castKids
        simp [hread, cast_terminal tabs eps rand ch pc _ k hchterm, hck]
      · have hdrop : ws.drop i = ws.get ⟨i, hi⟩ :: ws.drop (i + 1) :=
          List.drop_eq_getElem_cons hi
        rw [List.map_cons, List.length_cons, hdrop, List.take_succ_cons, List.map_cons,
          hpops, PTree.pop]

/-- C2 (amended): at a branch stage whose casting table is found, with the
sampled row's cells `ws` covering all children and terminal children, each
child `c` receives exactly `n * (ws c > 0 ? ws c : Eps)` — the cell value
itself whenever it is positive (also when it is below `Eps`), and `Eps` only
as a substitute for non-positive cells; no child receives exactly zero when
`Eps > 0` and `n ≠ 0`. -/
theorem cast_branch_distribution (tabs : List Table) (eps : ℚ) (rand : Nat → Nat)
    (r : SRec) (cs : List Stage) (pcs : List PTree) (p n : ℚ) (k : Nat)
    (t : Table) (ws : List ℚ)
    (h1 : ¬(r.cast = "Success")) (h2 : ¬(r.cast = "Sink")) (h3 : ¬(r.cast = "Direct"))
    (h4 : tabs.find? (fun tb => tb.name == r.cast) = some t)
    (hws : t.data.get? (if 1 < t.rows then rand k % t.rows else t.rows) = some ws)
    (hlen : cs.length ≤ ws.length)
    (hpl : pcs.length = cs.length)
    (hterm : ∀ c ∈ cs, c.srec.cast = "Success" ∨ c.srec.cast = "Sink") :
    ∃ pcs2,
      cast tabs eps rand (.node r cs) (.node p pcs) n k
        = .ok (.node n pcs2, if 1 < t.rows then k + 1 else k) ∧
      pcs2.map PTree.pop
        = (ws.take cs.length).map (fun f => n * (if 0 < f then f else eps)) ∧
      (0 < eps → n ≠ 0 → ∀ q ∈ pcs2.map PTree.pop, q ≠ 0) := by
  obtain ⟨pcs2, hck, hpops⟩ :=
    castKids_terminal tabs eps rand t (if 1 < t.rows then rand k % t.rows else t.rows) ws hws
      cs pcs 0 n (if 1 < t.rows then k + 1 else k) hterm hpl (by omega)
  refine ⟨pcs2, ?_, by simpa using hpops, ?_⟩
  · unfold cast
    simp [h1, h2, h3, h4, hck]
  · intro heps hn q hq
    rw [hpops] at hq
    rcases List.mem_map.mp hq with ⟨f, hf, rfl⟩
    by_cases h0 : 0 < f
    · rw [if_pos h0]
      exact mul_ne_zero hn (ne_of_gt h0)
    · rw [if_neg h0]
      exact mul_ne_zero hn (ne_of_gt heps)

/-- The table used in the `cast_branch_distribution` examples: two identical
rows whose first cell `0.0005` is strictly between 0 and the epsilon
`0.001`. -/
def tblHalfMil : Table :=
  { name := "T", rows := 2, cols := 2,
    data := [[1/2000, 1999/2000], [1/2000, 1999/2000]] }

/-- The two-terminal-children branch stage of the `cast` examples. -/
def stageB : Stage :=
  .node ⟨"B", "T", false, ""⟩
    [.node ⟨"C", "Success", false, ""⟩ [], .node ⟨"D", "Sink", false, ""⟩ []]

/-- Concrete run of `cast_branch_distribution`: a two-row table with first
cell `0.0005`, `Eps = 0.001`; the first child receives `0.0005 · n`. -/
theorem cast_branch_distribution_witness :
    ∃ pcs2,
      cast [tblHalfMil] (1/1000) (fun _ => 0) stageB
          (.node 0 [.node 0 [], .node 0 []]) 1 0
        = .ok (.node 1 pcs2, if 1 < tblHalfMil.rows then 0 + 1 else 0) ∧
      pcs2.map PTree.pop
        = (([1/2000, 1999/2000] : List ℚ).take 2).map
            (fun f => 1 * (if 0 < f then f else 1/1000)) ∧
      (0 < (1/1000 : ℚ) → (1 : ℚ) ≠ 0 → ∀ q ∈ pcs2.map PTree.pop, q ≠ 0) := by
  have h := cast_branch_distribution [tblHalfMil] (1/1000) (fun _ => 0)
    ⟨"B", "T", false, ""⟩
    [.node ⟨"C", "Success", false, ""⟩ [], .node ⟨"D", "Sink", false, ""⟩ []]
    [.node 0 [], .node 0 []] 0 1 0 tblHalfMil [1/2000, 1999/2000]
    (by decide) (by decide) (by decide) (by rfl) (by rfl) (by decide) (by decide)
    (by decide)
  exact h

/-- C2 (counterexample to the claim as stated): with `Eps = 2` and a sampled
cell of `1` (strictly between 0 and `Eps`), the first child receives
`n × 1` — the cell value, not `n × max(cell, Eps) = n × 2`. -/
theorem cast_not_max_floor_counterexample :
    cast [{ name := "T", rows := 2, cols := 2, data := [[1, 0], [1, 0]] }] 2 (fun _ => 0)
        (.node ⟨"B", "T", false, ""⟩
          [.node ⟨"C", "Success", false, ""⟩ [], .node ⟨"D", "Sink", false, ""⟩ []])
        (.node 0 [.node 0 [], .node 0 []]) 1 0
      = .ok (.node 1 [.node ((1 : ℚ) * 1) [], .node ((1 : ℚ) * 2) []], 1) ∧
    (0 : ℚ) < 1 ∧ (1 : ℚ) < 2 ∧
    (1 : ℚ) * max 1 2 = 2 ∧ (1 : ℚ) * 1 ≠ (1 : ℚ) * 2 := by
  refine ⟨rfl, by norm_num, by norm_num, by norm_num, by norm_num⟩

/-- C1: for a casting table with exactly one row reached by `Cast` at a stage
with at least one child, the row index used is `readRows() = 1`, not 0: the
cell read `readCell(1, c)` is outside the single-row data and raises
`std::out_of_range` (no draw of the generator ever happens and row 0 is never
used). -/
theorem cast_single_row_out_of_range (tabs : List Table) (eps : ℚ) (rand : Nat → Nat)
    (r : SRec) (c0 : Stage) (cst : List Stage) (pc : PTree) (pcst : List PTree)
    (p n : ℚ) (k : Nat) (t : Table)
    (h1 : ¬(r.cast = "Success")) (h2 : ¬(r.cast = "Sink")) (h3 : ¬(r.cast = "Direct"))
    (h4 : tabs.find? (fun tb => tb.name == r.cast) = some t)
    (h5 : t.rows = 1) (h6 : t.data.length = 1) :
    cast tabs eps rand (.node r (c0 :: cst)) (.node p (pc :: pcst)) n k
      = .error .outOfRange := by
  have hrow : ¬(1 < t.rows) := by omega
  have hread : t.readCell t.rows 0 = none := by
    have h7 : t.data.get? t.rows = none := by
      apply List.get?_eq_none.mpr
      omega
    show (t.data.get? t.rows).bind (fun rw2 => rw2.get? 0) = none
    rw [h7, Option.none_bind]
  unfold cast
  simp only [h1, h2, h3, h4, hrow]
  unfold castKids
  simp [hread]

/-- Concrete run of `cast_single_row_out_of_range`: the spec's own
end-to-end scenario (one-row table `[0.5, 0.5]` at a two-child stage) makes
`Cast` abort with an out-of-range cell access instead of distributing from
row 0. -/
theorem cast_single_row_out_of_range_witness :
    cast [{ name := "T", rows := 1, cols := 2, data := [[1/2, 1/2]] }]
        (1/10000) (fun _ => 0)
        (.node ⟨"B", "T", false, ""⟩
          [.node ⟨"C", "Success", true, ""⟩ [], .node ⟨"D", "Sink", true, ""⟩ []])
        (.node 0 [.node 0 [], .node 0 []]) 100 0
      = .error .outOfRange := by
  exact cast_single_row_out_of_range
    [{ name := "T", rows := 1, cols := 2, data := [[1/2, 1/2]] }]
    (1/10000) (fun _ => 0) ⟨"B", "T", false, ""⟩
    (.node ⟨"C", "Success", true, ""⟩ []) [.node ⟨"D", "Sink", true, ""⟩ []]
    (.node 0 []) [.node 0 []] 0 100 0
    { name := "T", rows := 1, cols := 2, data := [[1/2, 1/2]] }
    (by decide) (by decide) (by decide) (by rfl) (by rfl) (by rfl)

/-- C10: at a stage whose casting text is neither reserved nor the name of
any existing table (the empty string included), `Cast` records the incoming
population, visits no child and raises no error; the children's previously
recorded populations are returned untouched. -/
theorem cast_unknown_casting_is_silent (tabs : List Table) (eps : ℚ) (rand : Nat → Nat)
    (r : SRec) (cs : List Stage) (pcs : List PTree) (p n : ℚ) (k : Nat)
    (h1 : ¬(r.cast = "Success")) (h2 : ¬(r.cast = "Sink")) (h3 : ¬(r.cast = "Direct"))
    (h4 : tabs.find? (fun tb => tb.name == r.cast) = none) :
    cast tabs eps rand (.node r cs) (.node p pcs) n k = .ok (.node n pcs, k) := by
  unfold cast
  simp [h1, h2, h3, h4]

/-- Concrete run of `cast_unknown_casting_is_silent`: a stage with the empty
casting name keeps its children's earlier populations 3 and 4. -/
theorem cast_unknown_casting_is_silent_witness :
    cast [{ name := "T", rows := 2, cols := 2, data := [[1, 0], [0, 1]] }]
        (1/1000) (fun _ => 0)
        (.node ⟨"B", "", false, ""⟩
          [.node ⟨"C", "Success", false, ""⟩ [], .node ⟨"D", "Sink", false, ""⟩ []])
        (.node 7 [.node 3 [], .node 4 []]) 100 5
      = .ok (.node 100 [.node 3 [], .node 4 []], 5) := by
  exact cast_unknown_casting_is_silent
    [{ name := "T", rows := 2, cols := 2, data := [[1, 0], [0, 1]] }]
    (1/1000) (fun _ => 0) ⟨"B", "", false, ""⟩
    [.node ⟨"C", "Success", false, ""⟩ [], .node ⟨"D", "Sink", false, ""⟩ []]
    [.node 3 [], .node 4 []] 7 100 5
    (by decide) (by decide) (by decide) (by rfl)

/-! ### Facts about the validator -/

/-- Structural validity of one stage, root included: leaves are
`Success`/`Sink`, single-child stages `Direct`, branch stages carry a
non-reserved casting which, when a table of that name exists, has as many
columns as the stage has children. -/
def stageOKb (tabs : List Table) (r : SRec) (n : Nat) : Bool :=
  if n = 0 then r.cast == "Success" || r.cast == "Sink"
  else if n = 1 then r.cast == "Direct"
  else
    (!(r.cast == "Direct" || r.cast == "Success" || r.cast == "Sink")) &&
    (match tabs.find? (fun t => t.name == r.cast) with
     | some t => t.cols == n
     | none => true)

mutual

/-- Structural validity of every stage of a tree. -/
def validTreeB (tabs : List Table) : Stage → Bool
  | .node r cs => stageOKb tabs r cs.length && validListB tabs cs

/-- Structural validity over a sibling list. -/
def validListB (tabs : List Table) : List Stage → Bool
  | [] => true
  | c :: cs => validTreeB tabs c && validListB tabs cs

end

lemma stageOKb_nodeCheck (tabs : List Table) (r : SRec) (n : Nat)
    (h : stageOKb tabs r n = true) : nodeCheck tabs r n = none := by
  unfold stageOKb at h
  unfold nodeCheck
  by_cases h0 : n = 0
  · simp only [h0, if_true] at h ⊢
    simp at h
    rcases h with h | h <;> simp [h]
  · by_cases h1 : n = 1
    · simp only [h0, h1, if_false, if_true] at h ⊢
      simp at h
      simp [h]
    · simp only [h0, h1, if_false] at h ⊢
      cases hmatch : tabs.find? (fun t => t.name == r.cast) with
      | none =>
        rw [hmatch] at h
        simp at h
        simp [hmatch, h]
      | some t =>
        rw [hmatch] at h
        simp at h
        obtain ⟨hr, hc⟩ := h
        simp [hmatch, hr, hc]

lemma valid_list_checks (tabs : List Table) (cs : List Stage)
    (ih : ∀ c ∈ cs, validTreeB tabs c = true → checkStructure tabs c = none)
    (hv : validListB tabs cs = true) : checkList tabs cs = none := by
  induction cs with
  | nil => rfl
  | cons c cst ihl =>
    unfold validListB at hv
    rw [Bool.and_eq_true] at hv
    unfold checkList
    rw [ih c (by simp) hv.1]
    exact ihl (fun d hd hvd => ih d (by simp [hd]) hvd) hv.2

/-- C9 (amended): the root is subject to the same structural rules as every
other stage; for any tree in which every node — the root included — obeys
them, the structural pass reports no error. -/
theorem valid_tree_checks_clean (tabs : List Table) (t : Stage)
    (hv : validTreeB tabs t = true) : checkStructure tabs t = none := by
  induction t using stage_ind with
  | _ r cs ih =>
    unfold validTreeB at hv
    rw [Bool.and_eq_true] at hv
    unfold checkStructure
    rw [stageOKb_nodeCheck tabs r cs.length hv.1]
    exact valid_list_checks tabs cs ih hv.2

/-- Concrete run of `valid_tree_checks_clean`: a root re-typed `Direct` over a
`Success` leaf validates cleanly. -/
theorem valid_tree_checks_clean_witness :
    validTreeB [] (.node ⟨"Start", "Direct", false, ""⟩
      [.node ⟨"A", "Success", false, ""⟩ []]) = true ∧
    checkStructure [] (.node ⟨"Start", "Direct", false, ""⟩
      [.node ⟨"A", "Success", false, ""⟩ []]) = none :=
  ⟨rfl, valid_tree_checks_clean [] (.node ⟨"Start", "Direct", false, ""⟩
    [.node ⟨"A", "Success", false, ""⟩ []]) rfl⟩

/-- C9 (counterexample to the claim as stated): the check iterator starts at
the root, so a root with no casting assignment of its own and a single
(valid, terminal) child fails the pass with the wrong-kind-for-single-child
error instead of succeeding. -/
theorem root_requires_kind_counterexample :
    checkStructure [] (.node ⟨"Start", "", false, ""⟩
      [.node ⟨"A", "Success", false, ""⟩ []]) = some CErr.wrongSingle ∧
    checkList [] [(.node ⟨"A", "Success", false, ""⟩ [] : Stage)] = none :=
  ⟨rfl, rfl⟩

/-- C4 (amended): at a stage with more than one child, a reserved kind fails
with the missing-casting error, and a named table with the wrong column count
fails with the shape mismatch; but a non-reserved casting that names no
existing table passes the check silently. -/
theorem branch_stage_check_cases (tabs : List Table) (r : SRec) (n : Nat) (hn : 1 < n) :
    ((r.cast = "Direct" ∨ r.cast = "Success" ∨ r.cast = "Sink") →
      nodeCheck tabs r n = some .missingCasting) ∧
    (¬(r.cast = "Direct" ∨ r.cast = "Success" ∨ r.cast = "Sink") →
      ∀ t, tabs.find? (fun tb => tb.name == r.cast) = some t → ¬(t.cols = n) →
        nodeCheck tabs r n = some .shapeMismatch) ∧
    (¬(r.cast = "Direct" ∨ r.cast = "Success" ∨ r.cast = "Sink") →
      tabs.find? (fun tb => tb.name == r.cast) = none →
      nodeCheck tabs r n = none) := by
  have h0 : ¬(n = 0) := by omega
  have h1 : ¬(n = 1) := by omega
  refine ⟨?_, ?_, ?_⟩
  · intro hres
    unfold nodeCheck
    simp [h0, h1, hres]
  · intro hres t hf hc
    unfold nodeCheck
    simp [h0, h1, hres, hf, hc]
  · intro hres hf
    unfold nodeCheck
    simp [h0, h1, hres, hf]

/-- Concrete runs of `branch_stage_check_cases` at a two-child stage: the
reserved kind `Direct` is a missing casting, the one-column table `"T"` is a
shape mismatch, and the unknown name `"X"` passes. -/
theorem branch_stage_check_cases_witness :
    nodeCheck [] ⟨"B", "Direct", false, ""⟩ 2 = some .missingCasting ∧
    nodeCheck [fillZeroes 1 1 "T"] ⟨"B", "T", false, ""⟩ 2 = some .shapeMismatch ∧
    nodeCheck [fillZeroes 1 1 "T"] ⟨"B", "X", false, ""⟩ 2 = none :=
  ⟨(branch_stage_check_cases [] ⟨"B", "Direct", false, ""⟩ 2 (by omega)).1
      (by simp),
   (branch_stage_check_cases [fillZeroes 1 1 "T"] ⟨"B", "T", false, ""⟩ 2 (by omega)).2.1
      (by simp) (fillZeroes 1 1 "T") (by rfl) (by simp [fillZeroes]),
   (branch_stage_check_cases [fillZeroes 1 1 "T"] ⟨"B", "X", false, ""⟩ 2 (by omega)).2.2
      (by simp) (by rfl)⟩

/-- C4 (counterexample to the claim as stated): a two-child stage whose
casting text `"X"` names no existing table (the table list is empty) passes
the whole validation pass instead of failing. -/
theorem check_accepts_unknown_casting_counterexample :
    List.find? (fun t => t.name == "X") ([] : List Table) = none ∧
    checkStructure [] (.node ⟨"Start", "X", false, ""⟩
      [.node ⟨"C", "Success", false, ""⟩ [], .node ⟨"D", "Sink", false, ""⟩ []]) = none :=
  ⟨rfl, rfl⟩

/-! ### Facts about the `setData` clamp -/

/-- Every cell of the row within `[0,1]` and the row summing to at most 1. -/
def rowOK (row : List ℚ) : Prop := (∀ x ∈ row, 0 ≤ x ∧ x ≤ 1) ∧ row.sum ≤ 1

/-- Every row of the table satisfies `rowOK`. -/
def tableOK (t : Table) : Prop := ∀ row ∈ t.data, rowOK row

/-- A sequence of `writeCell` edits `(row, col, value)`, applied left to
right. -/
def applyWrites (t : Table) : List (Nat × Nat × ℚ) → Table
  | [] => t
  | w :: ws => applyWrites (t.setData w.1 w.2.1 w.2.2) ws

lemma sum_set_q (l : List ℚ) : ∀ (i : Nat) (x : ℚ), i < l.length →
    (l.set i x).sum = l.sum - l.getD i 0 + x := by
  induction l with
  | nil =>
    intro i x h
    simp at h
  | cons a as ih =>
    intro i x h
    cases i with
    | zero =>
      simp [List.set]
      ring
    | succ j =>
      simp only [List.set, List.sum_cons, List.getD_cons_succ]
      rw [ih j x (by simpa using h)]
      ring

lemma rowOK_write (row : List ℚ) (c : Nat) (w : ℚ) (hclen : c < row.length)
    (hrow : rowOK row) (hw0 : 0 ≤ w) (hw1 : w ≤ 1)
    (hwsum : row.sum - row.getD c 0 + w ≤ 1) : rowOK (row.set c w) := by
  constructor
  · intro x hx
    rcases List.mem_or_eq_of_mem_set hx with hx | hx
    · exact hrow.1 x hx
    · subst hx
      exact ⟨hw0, hw1⟩
  · rw [sum_set_q row c w hclen]
    exact hwsum

lemma setData_preserves (t : Table) (r c : Nat) (v : ℚ) (ht : tableOK t) :
    tableOK (t.setData r c v) := by
  unfold Table.setData
  by_cases hb : r < t.rows ∧ c < t.cols
  · rw [if_pos hb]
    cases hr : t.data.get? r with
    | none => exact ht
    | some row =>
      dsimp only
      cases hc : row.get? c with
      | none => exact ht
      | some pos =>
        dsimp only
        obtain ⟨hclen, hget⟩ := List.get?_eq_some.mp hc
        have hgetD : row.getD c 0 = pos := by
          rw [List.getD_eq_getElem?_getD, ← List.get?_eq_getElem?, hc, Option.getD_some]
        have hrowmem : row ∈ t.data := List.get?_mem hr
        have hrow := ht row hrowmem
        have hposmem : pos ∈ row := hget ▸ List.get_mem row c hclen
        have hpos := hrow.1 pos hposmem
        have hsum0 : 0 ≤ row.sum - pos := by
          have := List.single_le_sum (fun y hy => (hrow.1 y hy).1) pos hposmem
          linarith
        have hsum1 : row.sum - pos ≤ 1 := by
          have := hrow.2
          linarith [hpos.1]
        intro row2 hrow2
        rcases List.mem_or_eq_of_mem_set hrow2 with hm | hm
        · exact ht row2 hm
        · subst hm
          have hval0 : (0 : ℚ) ≤ if v < 0 then 0 else if 1 < v then 1 else v := by
            split_ifs with h1 h2 <;> linarith
          have hval1 : (if v < 0 then 0 else if 1 < v then 1 else v) ≤ 1 := by
            split_ifs with h1 h2 <;> linarith
          apply rowOK_write row c _ hclen hrow
          · split_ifs with h <;> linarith
          · split_ifs with h <;> linarith
          · rw [hgetD]
            split_ifs with h <;> linarith
  · rw [if_neg hb]
    exact ht

/-- C3 (amended): the clamp invariant — every cell in `[0,1]` (the
just-written one included) and every row sum at most 1 — is preserved by
arbitrary `writeCell` sequences provided it holds of the initial fill (as it
does for zero-filled tables and copies of such); a raw/pasted fill with cells
outside `[0,1]` or over-full rows is not repaired, and a write into an
over-full row can store a negative cell. -/
theorem write_clamp_invariant (t : Table) (ws : List (Nat × Nat × ℚ))
    (ht : tableOK t) : tableOK (applyWrites t ws) := by
  induction ws generalizing t with
  | nil => exact ht
  | cons w ws ih => exact ih (t.setData w.1 w.2.1 w.2.2) (setData_preserves t w.1 w.2.1 w.2.2 ht)

/-- Concrete run of `write_clamp_invariant`: a zero-filled 2×2 table after
three writes (one out of bounds, one over-filling its row) still satisfies
the invariant. -/
theorem write_clamp_invariant_witness :
    tableOK (fillZeroes 2 2 "T") ∧
    tableOK (applyWrites (fillZeroes 2 2 "T") [(0, 0, 1/2), (0, 1, 3/4), (5, 5, 9)]) := by
  have h0 : tableOK (fillZeroes 2 2 "T") := by
    intro row hrow
    simp [fillZeroes] at hrow
    subst hrow
    constructor
    · intro x hx
      simp at hx
      subst hx
      norm_num
    · norm_num
  exact ⟨h0, write_clamp_invariant (fillZeroes 2 2 "T") [(0, 0, 1/2), (0, 1, 3/4), (5, 5, 9)] h0⟩

/-- C3 (counterexample to the claim as stated): on a table filled from raw
data `[2, 0]` (reachable by paste or load, and not clamped by the fill), a
write of `0.5` into the second cell stores `1 − 2 = −1`: the just-written
cell is negative, outside `[0.0, 1.0]`. -/
theorem setData_negative_cell_counterexample :
    ((fillFromRaw [2, 0] 1 2 "R").setData 0 1 (1/2)).data = [[2, -1]] ∧
    ¬((0 : ℚ) ≤ -1) := by
  constructor
  · unfold fillFromRaw Table.setData
    norm_num [chunksC]
  · norm_num

/-! ### Facts about the status flags and the state-changing operations -/

/-- A small model with one zero-filled 1×2 table and both status flags set,
as after a successful check and save. -/
def st6 : StoxState :=
  { tree := .node ⟨"Start", "Direct", false, ""⟩ [.node ⟨"A", "Success", true, ""⟩ []]
    tables := [{ name := "T", rows := 1, cols := 2, data := [[0, 0]] }]
    numTables := 1, checked := true, saved := true }

/-- C6 (amended): creating a table, assigning a casting and adding a child
(on their successful paths) reset both status flags to false; but a cell
write through the table view and the report-flag toggles leave `checked` and
`saved` exactly as they were. -/
theorem mutation_flag_behaviour :
    (∀ (st : StoxState) (ti r c : Nat) (v : ℚ),
      (stoxTableWrite st ti r c v).checked = st.checked ∧
      (stoxTableWrite st ti r c v).saved = st.saved) ∧
    (∀ st : StoxState,
      (showAllOp st).checked = st.checked ∧ (showAllOp st).saved = st.saved) ∧
    (∀ (st : StoxState) (name : String) (rows cols : Nat),
      ¬(name = "") → name ∉ typeNames →
      st.tables.any (fun t => t.name == name) = false →
      (newTable st name rows cols).checked = false ∧
      (newTable st name rows cols).saved = false) ∧
    (∀ (st : StoxState) (path : List Nat) (cname : String),
      (setCastingOp st (some path) (some cname)).checked = false ∧
      (setCastingOp st (some path) (some cname)).saved = false) ∧
    (∀ (st : StoxState) (path : List Nat) (nm ct : String), ¬(nm = "") →
      (addChildOp st (some path) nm ct).checked = false ∧
      (addChildOp st (some path) nm ct).saved = false) := by
  refine ⟨fun st ti r c v => ⟨rfl, rfl⟩, fun st => ⟨rfl, rfl⟩, ?_, ?_, ?_⟩
  · intro st name rows cols h1 h2 h3
    unfold newTable
    rw [if_neg h1, if_neg h2, if_neg (by simp [h3])]
    exact ⟨rfl, rfl⟩
  · intro st path cname
    exact ⟨rfl, rfl⟩
  · intro st path nm ct h1
    unfold addChildOp
    dsimp only
    rw [if_neg h1]
    exact ⟨rfl, rfl⟩

/-- Concrete runs of `mutation_flag_behaviour` on `st6`. -/
theorem mutation_flag_behaviour_witness :
    ((stoxTableWrite st6 0 0 0 1).checked = st6.checked ∧
      (stoxTableWrite st6 0 0 0 1).saved = st6.saved) ∧
    ((showAllOp st6).checked = st6.checked ∧ (showAllOp st6).saved = st6.saved) ∧
    ((newTable st6 "U" 2 2).checked = false ∧ (newTable st6 "U" 2 2).saved = false) ∧
    ((setCastingOp st6 (some [0]) (some "T")).checked = false ∧
      (setCastingOp st6 (some [0]) (some "T")).saved = false) ∧
    ((addChildOp st6 (some []) "B" "Sink").checked = false ∧
      (addChildOp st6 (some []) "B" "Sink").saved = false) :=
  ⟨mutation_flag_behaviour.1 st6 0 0 0 1,
   mutation_flag_behaviour.2.1 st6,
   mutation_flag_behaviour.2.2.1 st6 "U" 2 2 (by decide) (by decide) (by rfl),
   mutation_flag_behaviour.2.2.2.1 st6 [0] "T",
   mutation_flag_behaviour.2.2.2.2 st6 [] "B" "Sink" (by decide)⟩

/-- C6 (counterexample to the claim as stated): writing a single table cell
through the table view mutates the table but leaves `checked = true` and
`saved = true`, instead of resetting both to false. -/
theorem table_write_keeps_flags_counterexample :
    (stoxTableWrite st6 0 0 0 1).checked = true ∧
    (stoxTableWrite st6 0 0 0 1).saved = true ∧
    (stoxTableWrite st6 0 0 0 1).tables
      = [{ name := "T", rows := 1, cols := 2, data := [[1, 0]] }] ∧
    st6.tables = [{ name := "T", rows := 1, cols := 2, data := [[0, 0]] }] := by
  refine ⟨rfl, rfl, ?_, rfl⟩
  unfold stoxTableWrite st6 updAt Table.setData
  norm_num

/-- The empty starting model with both flags set (nothing to save, check
passed on some earlier state). -/
def st8 : StoxState :=
  { tree := .node ⟨"Start", "", false, ""⟩ [], tables := [], numTables := 0
    checked := true, saved := true }

/-- C8: a paste rejected for incompatible clipboard contents (here a text
with no tab characters) does *not* leave the table set and count as they
were: the fresh empty table pushed before the clipboard test stays behind
and `NumTables` remains incremented. -/
theorem paste_reject_leaks_table :
    pasteTable st8 "A" (some "hello") (fun _ _ => [])
      = { st8 with tables := [emptyTable], numTables := 1 } ∧
    pasteTable st8 "A" none (fun _ _ => [])
      = { st8 with tables := [emptyTable], numTables := 1 } ∧
    st8.tables = [] ∧ st8.numTables = 0 ∧ emptyTable.name = "" :=
  ⟨rfl, rfl, rfl, rfl, rfl⟩

/-! ### Facts about the run precondition -/

mutual

/-- A stage tree with every hierarchical id blanked (the ids are diagnostic
output of the validator, rewritten on every pass). -/
def stripIds : Stage → Stage
  | .node r cs => .node { r with hid := "" } (stripIdsL cs)

/-- Blanked ids over a sibling list. -/
def stripIdsL : List Stage → List Stage
  | [] => []
  | c :: cs => stripIds c :: stripIdsL cs

end

lemma stripIdsL_idMarkL (cs : List Stage)
    (ih : ∀ c ∈ cs, ∀ pid, stripIds (idMark pid c) = stripIds c) :
    ∀ (pid : String) (i : Nat), stripIdsL (idMarkL pid i cs) = stripIdsL cs := by
  induction cs with
  | nil =>
    intro pid i
    rfl
  | cons c cst ihl =>
    intro pid i
    unfold idMarkL stripIdsL
    rw [ih c (by simp) _, ihl (fun d hd pid2 => ih d (by simp [hd]) pid2) pid (i + 1)]

lemma stripIds_idMark (t : Stage) : ∀ pid, stripIds (idMark pid t) = stripIds t := by
  induction t using stage_ind with
  | _ r cs ih =>
    intro pid
    unfold idMark stripIds
    rw [stripIdsL_idMarkL cs ih pid 1]

lemma checkOp_tables (st : StoxState) (ack : Bool) : (checkOp st ack).tables = st.tables := by
  unfold checkOp
  dsimp only
  cases checkStructure st.tables (idMark "1" st.tree) with
  | some e => rfl
  | none =>
    dsimp only
    split
    · rfl
    · rfl

lemma checkOp_tree (st : StoxState) (ack : Bool) :
    stripIds (checkOp st ack).tree = stripIds st.tree := by
  unfold checkOp
  dsimp only
  cases checkStructure st.tables (idMark "1" st.tree) with
  | some e => exact stripIds_idMark st.tree "1"
  | none =>
    dsimp only
    split
    · exact stripIds_idMark st.tree "1"
    · exact stripIds_idMark st.tree "1"

lemma preState_tables (st : StoxState) (sc cc ack : Bool) :
    (preState st sc cc ack).tables = st.tables := by
  unfold preState
  dsimp only
  split <;> split <;> (try rw [checkOp_tables]) <;> rfl

lemma preState_tree (st : StoxState) (sc cc ack : Bool) :
    stripIds (preState st sc cc ack).tree = stripIds st.tree := by
  unfold preState
  dsimp only
  split <;> split <;> (try rw [checkOp_tree]) <;> rfl

/-- C7: whenever the state left by the run handler is still unchecked (the
re-check dialog was declined or the check did not succeed), the run fails
with the not-validated error: no output table is produced (hence no
iteration ran and nothing was written), and the model proper — the tree up
to the diagnostic ids, and all casting tables — is exactly as before. -/
theorem run_not_validated (st : StoxState) (sc cc ack : Bool) (pop0 : ℚ)
    (iters : Nat) (eps : ℚ) (rand : Nat → Nat) (cancel : Nat → Bool)
    (hc : (runTriggered st sc cc ack pop0 iters eps rand cancel).1.checked = false) :
    (runTriggered st sc cc ack pop0 iters eps rand cancel).2 = .error .notValidated ∧
    stripIds (runTriggered st sc cc ack pop0 iters eps rand cancel).1.tree
      = stripIds st.tree ∧
    (runTriggered st sc cc ack pop0 iters eps rand cancel).1.tables = st.tables := by
  unfold runTriggered at hc ⊢
  dsimp only at hc ⊢
  by_cases h2 : (preState st sc cc ack).checked
  · rw [if_neg (by simpa using h2)] at hc ⊢
    exfalso
    revert hc
    cases runLoop (preState st sc cc ack).tables eps rand cancel
        (preState st sc cc ack).tree pop0
        (max 5 ((reportedL (preState st sc cc ack).tree).length + 1)) iters 1
        (initP (preState st sc cc ack).tree) 0 with
    | error e =>
      dsimp only
      intro hc
      rw [hc] at h2
      exact Bool.false_ne_true (by simpa using h2)
    | ok rows =>
      dsimp only
      intro hc
      rw [hc] at h2
      exact Bool.false_ne_true (by simpa using h2)
  · rw [if_pos (by simpa using h2)] at hc ⊢
    exact ⟨rfl, preState_tree st sc cc ack, preState_tables st sc cc ack⟩

/-- Concrete run of `run_not_validated`: an unchecked model with the
re-check dialog declined. -/
theorem run_not_validated_witness :
    (runTriggered { tree := .node ⟨"Start", "", false, ""⟩ [], tables := []
                    numTables := 0, checked := false, saved := true }
        false false false 100 5 0 (fun _ => 0) (fun _ => false)).1.checked = false ∧
    (runTriggered { tree := .node ⟨"Start", "", false, ""⟩ [], tables := []
                    numTables := 0, checked := false, saved := true }
        false false false 100 5 0 (fun _ => 0) (fun _ => false)).2
      = .error .notValidated := by
  have h := run_not_validated
    { tree := .node ⟨"Start", "", false, ""⟩ [], tables := []
      numTables := 0, checked := false, saved := true }
    false false false 100 5 0 (fun _ => 0) (fun _ => false) (by rfl)
  exact ⟨by rfl, h.1⟩

/-! ### Correctness of the level-tagged dump and its backward rebuild -/

lemma dumpList_append (lv : Int) (as bs : List Stage) :
    dumpList lv (as ++ bs) = dumpList lv as ++ dumpList lv bs := by
  induction as with
  | nil => simp [dumpList]
  | cons a as ih => simp [dumpList, ih]

lemma dumpList_length (cs : List Stage)
    (ih : ∀ c ∈ cs, ∀ lv : Int, (dump lv c).length = sz c) :
    ∀ lv : Int, (dumpList lv cs).length = szList cs := by
  induction cs with
  | nil =>
    intro lv
    rfl
  | cons c cst ihl =>
    intro lv
    unfold dumpList szList
    rw [List.length_append, ih c (by simp) lv,
      ihl (fun d hd l => ih d (by simp [hd]) l) lv]

lemma dump_length (t : Stage) : ∀ lv : Int, (dump lv t).length = sz t := by
  induction t using stage_ind with
  | _ r cs ih =>
    intro lv
    unfold dump
    rw [sz_node, List.length_cons, dumpList_length cs ih (lv + 1)]
    omega

lemma dumpList_levels (cs : List Stage)
    (ih : ∀ c ∈ cs, ∀ (lv : Int) (x : Int × SRec), x ∈ dump lv c → lv ≤ x.1) :
    ∀ (lv : Int) (x : Int × SRec), x ∈ dumpList lv cs → lv ≤ x.1 := by
  induction cs with
  | nil =>
    intro lv x hx
    cases hx
  | cons c cst ihl =>
    intro lv x hx
    unfold dumpList at hx
    rcases List.mem_append.mp hx with hx | hx
    · exact ih c (by simp) lv x hx
    · exact ihl (fun d hd => ih d (by simp [hd])) lv x hx

lemma dump_levels (t : Stage) : ∀ (lv : Int) (x : Int × SRec), x ∈ dump lv t → lv ≤ x.1 := by
  induction t using stage_ind with
  | _ r cs ih =>
    intro lv x hx
    unfold dump at hx
    rcases List.mem_cons.mp hx with hx | hx
    · subst hx
      exact le_refl _
    · have := dumpList_levels cs ih (lv + 1) x hx
      omega

lemma attachR_none (pl : Int) (ch : Stage) :
    ∀ l : List (Int × Stage), (∀ x ∈ l, x.1 ≠ pl) → attachR l pl ch = none := by
  intro l
  induction l with
  | nil =>
    intro h
    rfl
  | cons a rest ih =>
    intro h
    obtain ⟨l1, s1⟩ := a
    unfold attachR
    rw [ih (fun x hx => h x (by simp [hx]))]
    rw [if_neg (h (l1, s1) (by simp))]

lemma attachR_found (pl : Int) (ch : Stage) (p : Stage) :
    ∀ (A B : List (Int × Stage)), (∀ x ∈ B, x.1 ≠ pl) →
    attachR (A ++ (pl, p) :: B) pl ch = some (A ++ (pl, prependChild p ch) :: B) := by
  intro A
  induction A with
  | nil =>
    intro B hB
    rw [List.nil_append, List.nil_append]
    unfold attachR
    rw [attachR_none pl ch B hB, if_pos rfl]
  | cons a A ih =>
    intro B hB
    obtain ⟨l1, s1⟩ := a
    rw [List.cons_append, List.cons_append]
    unfold attachR
    rw [ih B hB]

lemma rebuildLoop_step (fuel : Nat) (l : List (Int × Stage)) (lv : Int) (s : Stage) :
    rebuildLoop (fuel + 1) (l ++ [(lv, s)]) =
      match attachR l (lv - 1) s with
      | some l2 => rebuildLoop fuel l2
      | none => some s := by
  conv_lhs => unfold rebuildLoop
  rw [List.getLast?_concat, List.dropLast_concat]

/-- The invariant of the rebuild loop for one dumped subtree: processing the
records of `dump lv t` appended after a pending list whose rightmost entry of
level `lv - 1` is `(lv - 1, p)` consumes exactly `sz t` loop iterations and
attaches the fully rebuilt `t` as the first child of `p`. -/
def MainProp (t : Stage) : Prop :=
  ∀ (lv : Int) (A B : List (Int × Stage)) (p : Stage) (n : Nat),
    (∀ x ∈ B, x.1 ≠ lv - 1) →
    rebuildLoop (sz t + n) (A ++ ((lv - 1, p) :: (B ++ (dump lv t).map initS)))
      = rebuildLoop n (A ++ ((lv - 1, prependChild p t) :: B))

lemma rebuild_fold (lv : Int) (cs : List Stage) :
    (∀ c ∈ cs, MainProp c) →
    ∀ (A B : List (Int × Stage)) (r : SRec) (acc : List Stage) (n : Nat),
      (∀ x ∈ B, x.1 ≠ lv) →
      rebuildLoop (szList cs + n)
          (A ++ ((lv, Stage.node r acc) :: (B ++ (dumpList (lv + 1) cs).map initS)))
        = rebuildLoop n (A ++ ((lv, Stage.node r (cs ++ acc)) :: B)) := by
  induction cs using List.reverseRecOn with
  | nil =>
    intro _ A B r acc n hB
    simp [dumpList, szList]
  | append_singleton cs0 c ih =>
    intro hmem A B r acc n hB
    have hmem0 : ∀ d ∈ cs0, MainProp d := fun d hd => hmem d (by simp [hd])
    have hc : MainProp c := hmem c (by simp)
    rw [dumpList_append, List.map_append]
    have hfuel : szList (cs0 ++ [c]) + n = sz c + (szList cs0 + n) := by
      rw [szList_append, szList_cons, szList]
      omega
    rw [hfuel]
    have hone : dumpList (lv + 1) [c] = dump (lv + 1) c := by
      unfold dumpList dumpList
      rw [List.append_nil]
    rw [hone]
    rw [← List.append_assoc B ((dumpList (lv + 1) cs0).map initS) ((dump (lv + 1) c).map initS)]
    have hB2 : ∀ x ∈ B ++ (dumpList (lv + 1) cs0).map initS, x.1 ≠ (lv + 1) - 1 := by
      intro x hx
      rcases List.mem_append.mp hx with hx | hx
      · simpa using hB x hx
      · rcases List.mem_map.mp hx with ⟨y, hy, rfl⟩
        have := dumpList_levels cs0 (fun d hd => dump_levels d) (lv + 1) y hy
        simp [initS]
        omega
    have happ := hc (lv + 1) A (B ++ (dumpList (lv + 1) cs0).map initS)
      (Stage.node r acc) (szList cs0 + n) hB2
    rw [show (lv + 1) - 1 = lv by omega] at happ
    rw [happ]
    have hprep : prependChild (Stage.node r acc) c = Stage.node r (c :: acc) := rfl
    rw [hprep]
    have hres := ih hmem0 A B r (c :: acc) n hB
    rw [hres]
    rw [show cs0 ++ [c] ++ acc = cs0 ++ c :: acc by simp]

lemma mainProp_all (t : Stage) : MainProp t := by
  induction t using stage_ind with
  | _ r cs ih =>
    intro lv A B p n hB
    unfold dump
    rw [List.map_cons]
    have hinit : initS (lv, r) = (lv, Stage.node r []) := rfl
    rw [hinit]
    have hassoc :
        A ++ ((lv - 1, p) :: (B ++ ((lv, Stage.node r []) ::
            (dumpList (lv + 1) cs).map initS)))
          = (A ++ ((lv - 1, p) :: B)) ++ ((lv, Stage.node r []) ::
              (([] : List (Int × Stage)) ++ (dumpList (lv + 1) cs).map initS)) := by
      simp
    rw [hassoc]
    have hfuel : sz (Stage.node r cs) + n = szList cs + (n + 1) := by
      rw [sz_node]
      omega
    rw [hfuel]
    have hfold := rebuild_fold lv cs ih (A ++ ((lv - 1, p) :: B)) [] r [] (n + 1)
      (by intro x hx; cases hx)
    rw [hfold]
    rw [show cs ++ ([] : List Stage) = cs by simp]
    have hstep := rebuildLoop_step n (A ++ ((lv - 1, p) :: B)) lv (Stage.node r cs)
    rw [show ((lv, Stage.node r cs) :: ([] : List (Int × Stage)))
        = [(lv, Stage.node r cs)] from rfl]
    rw [hstep, attachR_found (lv - 1) (Stage.node r cs) p A B hB]

/-- The backward rebuild of `on_actionOpen_triggered` inverts the pre-order
level-tagged dump: run with the dumped record count as fuel on the childless
items parsed from the file, it returns exactly the dumped tree. -/
lemma rebuild_dump (t : Stage) : rebuildLoop (sz t) ((dump 0 t).map initS) = some t := by
  cases t with
  | node r cs =>
    have hfold := rebuild_fold 0 cs (fun c _ => mainProp_all c) [] [] r [] 1
      (by intro x hx; cases hx)
    simp only [List.nil_append, List.append_nil] at hfold
    unfold dump
    rw [List.map_cons]
    have hfuel : sz (Stage.node r cs) = szList cs + 1 := by
      rw [sz_node]
      omega
    rw [hfuel]
    have hinit : initS ((0 : Int), r) = ((0 : Int), Stage.node r []) := rfl
    rw [hinit, hfold]
    rfl

/-! ### Parsing the saved byte stream back -/

/-- Well-formed table representation: the stored data has exactly the declared
shape. Every table constructor of the application (`FillZeroes`,
`FillFromCopy`, `FillFromRaw` as called with matching counts) establishes
this. -/
def Table.WF (t : Table) : Prop :=
  t.data.length = t.rows ∧ ∀ row ∈ t.data, row.length = t.cols

instance (t : Table) : Decidable t.WF := by
  unfold Table.WF
  infer_instance

lemma rdRecs_dumpToks : ∀ (ds : List (Int × SRec)) (rest : List Tok),
    rdRecs ds.length (dumpToks ds ++ rest) = some (ds, rest) := by
  intro ds
  induction ds with
  | nil =>
    intro rest
    rfl
  | cons d ds ih =>
    intro rest
    obtain ⟨lv, nm, ca, re, hi⟩ := d
    show rdRecs (ds.length + 1)
        (Tok.i lv :: Tok.s nm :: Tok.s ca :: Tok.b re :: Tok.s hi :: (dumpToks ds ++ rest))
      = some ((lv, ⟨nm, ca, re, hi⟩) :: ds, rest)
    unfold rdRecs
    rw [show rdRec (Tok.i lv :: Tok.s nm :: Tok.s ca :: Tok.b re :: Tok.s hi ::
        (dumpToks ds ++ rest)) = some ((lv, ⟨nm, ca, re, hi⟩), dumpToks ds ++ rest) from rfl]
    simp [ih rest]

lemma rdFlos_map : ∀ (vs : List ℚ) (rest : List Tok),
    rdFlos vs.length (vs.map Tok.f ++ rest) = some (vs, rest) := by
  intro vs
  induction vs with
  | nil =>
    intro rest
    rfl
  | cons v vs ih =>
    intro rest
    show rdFlos (vs.length + 1) (Tok.f v :: (vs.map Tok.f ++ rest)) = some (v :: vs, rest)
    unfold rdFlos
    rw [show rdFlo (Tok.f v :: (vs.map Tok.f ++ rest))
        = some (v, vs.map Tok.f ++ rest) from rfl]
    simp [ih rest]

lemma row_emission (row : List ℚ) :
    (List.range row.length).map (fun c => Tok.f ((row.get? c).getD 0)) = row.map Tok.f := by
  induction row with
  | nil => rfl
  | cons x xs ih =>
    rw [List.length_cons, List.range_succ_eq_map, List.map_cons, List.map_cons,
      List.map_map]
    have h2 : (List.range xs.length).map
        ((fun c => Tok.f (((x :: xs).get? c).getD 0)) ∘ Nat.succ) = xs.map Tok.f := ih
    rw [h2]
    rfl

lemma range_emission (cols : Nat) : ∀ (data : List (List ℚ)),
    (∀ row ∈ data, row.length = cols) →
    (List.range data.length).flatMap (fun r => (List.range cols).map fun c =>
        Tok.f ((((data.get? r).getD []).get? c).getD 0))
      = (data.flatMap fun row => row.map Tok.f) := by
  intro data
  induction data with
  | nil =>
    intro h
    rfl
  | cons row rest ih =>
    intro h
    have hrow : row.length = cols := h row (by simp)
    rw [List.length_cons, List.range_succ_eq_map, List.flatMap_cons, List.flatMap_cons]
    congr 1
    · simp only [List.get?_cons_zero, Option.getD_some]
      rw [← hrow, row_emission row]
    · rw [List.flatMap_map]
      exact ih fun r2 hr2 => h r2 (by simp [hr2])

lemma flatMap_map_join (data : List (List ℚ)) :
    (data.flatMap fun row => row.map Tok.f) = data.flatten.map Tok.f := by
  induction data with
  | nil => rfl
  | cons row rest ih => rw [List.flatMap_cons, List.flatten_cons, List.map_append, ih]

lemma chunksC_join (cols : Nat) : ∀ (data : List (List ℚ)),
    (∀ row ∈ data, row.length = cols) →
    chunksC data.length cols data.flatten = data := by
  intro data
  induction data with
  | nil =>
    intro h
    rfl
  | cons row rest ih =>
    intro h
    have hrow : row.length = cols := h row (by simp)
    rw [List.length_cons, List.flatten_cons]
    unfold chunksC
    have ih2 := ih fun r2 hr2 => h r2 (by simp [hr2])
    rw [← hrow] at ih2
    rw [← hrow, List.take_left, List.drop_left, ih2]

lemma flatten_length (cols : Nat) : ∀ (data : List (List ℚ)),
    (∀ row ∈ data, row.length = cols) →
    data.flatten.length = data.length * cols := by
  intro data
  induction data with
  | nil =>
    intro h
    simp
  | cons row rest ih =>
    intro h
    rw [List.flatten_cons, List.length_append, h row (by simp),
      ih (fun r2 hr2 => h r2 (by simp [hr2])), List.length_cons]
    ring

lemma rdTable_tabToks (t : Table) (hwf : t.WF) (rest : List Tok) :
    rdTable (tabToks t ++ rest) = some (t, rest) := by
  obtain ⟨hlen, hrows⟩ := hwf
  have hemis : ((List.range t.rows).flatMap fun r =>
      (List.range t.cols).map fun c => Tok.f (t.cellD r c)) = t.data.flatten.map Tok.f := by
    unfold Table.cellD
    rw [← hlen, range_emission t.cols t.data hrows, flatMap_map_join]
  have hcount : t.rows * t.cols = t.data.flatten.length := by
    rw [flatten_length t.cols t.data hrows, hlen]
  have hfill : fillFromRaw t.data.flatten t.rows t.cols t.name = t := by
    have hch := chunksC_join t.cols t.data hrows
    rw [hlen] at hch
    unfold fillFromRaw
    rw [hch]
  show rdTable (Tok.s t.name :: Tok.i (t.rows : Int) :: Tok.i (t.cols : Int) ::
      (((List.range t.rows).flatMap fun r =>
        (List.range t.cols).map fun c => Tok.f (t.cellD r c)) ++ rest)) = some (t, rest)
  rw [hemis]
  show (rdFlos ((t.rows : Int).toNat * (t.cols : Int).toNat)
      (List.map Tok.f t.data.flatten ++ rest)).bind
      (fun vs => some (fillFromRaw vs.1 (t.rows : Int).toNat (t.cols : Int).toNat t.name,
        vs.2))
    = some (t, rest)
  rw [Int.toNat_natCast, Int.toNat_natCast, hcount, rdFlos_map t.data.flatten rest,
    Option.some_bind, hfill]

lemma rdTables_flatMap : ∀ (tabs : List Table), (∀ t ∈ tabs, t.WF) → ∀ rest : List Tok,
    rdTables tabs.length (tabs.flatMap tabToks ++ rest) = some (tabs, rest) := by
  intro tabs
  induction tabs with
  | nil =>
    intro h rest
    rfl
  | cons t ts ih =>
    intro h rest
    show rdTables (ts.length + 1) ((tabToks t ++ ts.flatMap tabToks) ++ rest)
      = some (t :: ts, rest)
    rw [List.append_assoc]
    unfold rdTables
    rw [rdTable_tabToks t (h t (by simp)) (ts.flatMap tabToks ++ rest)]
    simp [ih (fun u hu => h u (by simp [hu])) rest]

/-- C5: loading the byte stream produced by saving a model reconstructs it
exactly — the same tree (shape, child order and every stage attribute) and
the same casting tables (names, shapes and cell values) — for every model
that passes the structural validation (and whose tables store data of their
declared shape, which every fill operation guarantees). -/
theorem save_load_roundtrip (tr : Stage) (tabs : List Table)
    (hchk : checkStructure tabs tr = none) (hwf : ∀ t ∈ tabs, t.WF) :
    loadModel (saveModel tr tabs) = some (tr, tabs) := by
  have ht := rdTables_flatMap tabs hwf []
  rw [List.append_nil] at ht
  have hreb : rebuildLoop (dump 0 tr).length ((dump 0 tr).map initS) = some tr := by
    rw [dump_length tr 0]
    exact rebuild_dump tr
  unfold loadModel saveModel
  simp [rdInt, rdRecs_dumpToks, ht, hreb, Int.toNat_natCast]

/-- Concrete run of `save_load_roundtrip`: a validating three-level model
with one 1×2 casting table survives the save/load cycle unchanged. -/
theorem save_load_roundtrip_witness :
    checkStructure [{ name := "T", rows := 1, cols := 2, data := [[1/2, 1/2]] }]
      (.node ⟨"Start", "Direct", false, "1"⟩
        [.node ⟨"A", "T", true, "1.1"⟩
          [.node ⟨"C", "Success", true, "1.1.1"⟩ [],
           .node ⟨"D", "Sink", false, "1.1.2"⟩ []]]) = none ∧
    (∀ t ∈ [({ name := "T", rows := 1, cols := 2, data := [[1/2, 1/2]] } : Table)], t.WF) ∧
    loadModel (saveModel
      (.node ⟨"Start", "Direct", false, "1"⟩
        [.node ⟨"A", "T", true, "1.1"⟩
          [.node ⟨"C", "Success", true, "1.1.1"⟩ [],
           .node ⟨"D", "Sink", false, "1.1.2"⟩ []]])
      [{ name := "T", rows := 1, cols := 2, data := [[1/2, 1/2]] }])
      = some (.node ⟨"Start", "Direct", false, "1"⟩
        [.node ⟨"A", "T", true, "1.1"⟩
          [.node ⟨"C", "Success", true, "1.1.1"⟩ [],
           .node ⟨"D", "Sink", false, "1.1.2"⟩ []]],
        [{ name := "T", rows := 1, cols := 2, data := [[1/2, 1/2]] }]) :=
  ⟨rfl, by decide,
   save_load_roundtrip
     (.node ⟨"Start", "Direct", false, "1"⟩
       [.node ⟨"A", "T", true, "1.1"⟩
         [.node ⟨"C", "Success", true, "1.1.1"⟩ [],
          .node ⟨"D", "Sink", false, "1.1.2"⟩ []]])
     [{ name := "T", rows := 1, cols := 2, data := [[1/2, 1/2]] }]
     rfl (by decide)⟩

end StoX
